import Mathlib

/-!
Shallow embedding of the QubitEngine state-vector simulator core
(`src/backend/src/QuantumRegister.{hpp,cpp}`, `QuantumDifferentiator.hpp`,
`MolecularHamiltonian.hpp`, `ServiceImpl.cpp`), together with theorems that
settle the frozen specification claims.

Modelling conventions:
* `std::complex<double>` amplitudes are modelled exactly over `ℂ`; `double`
  scalars over `ℝ`.  Floating-point tolerances in the code (`1e-15`, `1e-9`)
  are kept as literal real constants.
* The amplitude vector `std::vector<Complex> state` of length `2^n`
  (single-rank build: `world_size = 1`, `local_rank = 0`, so
  `local_dim = 2^n`) is modelled as a function `ℕ → ℂ`; indices `≥ 2^n` are
  never touched by any kernel, mirroring the loop bounds.
* The in-place pair loops of the kernels read both members of a disjoint
  amplitude pair before writing them and touch every index at most once, so
  they are translated to their (equivalent) one-shot functional update.
* The Mersenne-twister samples drawn by `measure` are passed in as an
  explicit real argument `sample ∈ [0,1)`.
* `applyCNOT` throws `std::invalid_argument` when `control == target`; this
  is the only kernel error path, modelled with `Except GateError`.
* The non-MPI build (`MPI_ENABLED` undefined) is modelled: a CNOT on a
  global qubit prints an error to `cerr` and returns with the state
  unchanged.
-/

namespace QubitEngine

noncomputable section

open scoped Classical

/-- Amplitude vector: index `i` holds the coefficient of basis state `|i⟩`
(little-endian qubit order, `(i >> q) & 1` is the value of qubit `q`). -/
abbrev Amps := ℕ → ℂ

/-- `INV_SQRT_2` constant of `QuantumRegister.cpp`. -/
def INV_SQRT_2 : ℝ := 1 / Real.sqrt 2

/-- `RecordedGate::Type` enumeration of `QuantumRegister.hpp`. -/
inductive GateKind
  | H | X | Y | Z | CNOT | RX | RY | RZ | PHASE_S | PHASE_T | TOFFOLI | MEASURE
deriving DecidableEq

/-- `RecordedGate` of `QuantumRegister.hpp`: kind, qubit list, angle list. -/
structure RecordedGate where
  type : GateKind
  qubits : List ℕ
  params : List ℝ

/-- `QuantumRegister` state (single-rank build): qubit count, amplitude
vector, recorder flag and tape (both private fields of the C++ class). -/
structure QuantumRegister where
  num_qubits : ℕ
  state : Amps
  recording_enabled : Bool
  tape : List RecordedGate

/-- `QuantumRegister::QuantumRegister(size_t n)`: `local_dim = 2^n` amplitudes,
all zero except amplitude `1` at index `0` (rank 0); recorder off, tape empty. -/
def mkRegister (n : ℕ) : QuantumRegister :=
  ⟨n, fun k => if k = 0 then 1 else 0, false, []⟩

/-- Error kind surfaced by kernels (`std::invalid_argument`). -/
inductive GateError
  | invalidArgument (msg : String)
deriving DecidableEq

/-- `QuantumRegister::applyHadamard` (scalar path): when `stride < local_dim`,
for every pair `(j, j+stride)` with bit `target` of `j` clear,
`a,b ↦ ((a+b)/√2, (a−b)/√2)`; otherwise a silent no-op. -/
def applyHadamard (target : ℕ) (r : QuantumRegister) : QuantumRegister :=
  let dim := 2 ^ r.num_qubits
  let stride := 2 ^ target
  if stride < dim then
    { r with state := fun k =>
        if k < dim then
          if k &&& stride = 0 then
            (r.state k + r.state (k ^^^ stride)) * (INV_SQRT_2 : ℂ)
          else
            (r.state (k ^^^ stride) - r.state k) * (INV_SQRT_2 : ℂ)
        else r.state k }
  else r

/-- `QuantumRegister::applyX`: pair swap; silent no-op when `stride ≥ local_dim`. -/
def applyX (target : ℕ) (r : QuantumRegister) : QuantumRegister :=
  let dim := 2 ^ r.num_qubits
  let stride := 2 ^ target
  if stride < dim then
    { r with state := fun k =>
        if k < dim then r.state (k ^^^ stride) else r.state k }
  else r

/-- `QuantumRegister::applyY`: `a ↦ −i·b`, `b ↦ i·a` on each pair. -/
def applyY (target : ℕ) (r : QuantumRegister) : QuantumRegister :=
  let dim := 2 ^ r.num_qubits
  let stride := 2 ^ target
  if stride < dim then
    { r with state := fun k =>
        if k < dim then
          if k &&& stride = 0 then -Complex.I * r.state (k ^^^ stride)
          else Complex.I * r.state (k ^^^ stride)
        else r.state k }
  else r

/-- `QuantumRegister::applyZ`: negates the amplitudes with bit `target` set. -/
def applyZ (target : ℕ) (r : QuantumRegister) : QuantumRegister :=
  let dim := 2 ^ r.num_qubits
  let stride := 2 ^ target
  if stride < dim then
    { r with state := fun k =>
        if k < dim then
          if k &&& stride = 0 then r.state k else -r.state k
        else r.state k }
  else r

/-- `QuantumRegister::applyCNOT`: throws `std::invalid_argument` when
`control == target`; when both strides are local, swaps `state[i]` with
`state[i ^ (1<<target)]` for every `i` with bit `control` set (each pair
visited once via the `i < partner` guard); in the non-MPI build any global
stride prints an error to `cerr` and leaves the state unchanged. -/
def applyCNOT (control target : ℕ) (r : QuantumRegister) :
    Except GateError QuantumRegister :=
  if control = target then
    .error (.invalidArgument "Control and target must be distinct")
  else
    let dim := 2 ^ r.num_qubits
    let c_stride := 2 ^ control
    let t_stride := 2 ^ target
    if c_stride < dim ∧ t_stride < dim then
      .ok { r with state := fun k =>
        if k < dim ∧ k &&& c_stride ≠ 0 then r.state (k ^^^ t_stride)
        else r.state k }
    else .ok r

/-- `QuantumRegister::applyToffoli`: when `1<<t < local_dim`, swaps `state[i]`
with `state[i + (1<<t)]` for every `i` with bits `c1`, `c2` set and bit `t`
clear; no validity checks of any kind.  Functionally, index `k` receives the
partner amplitude exactly when `k` or its partner `k ^^^ (1<<t)` satisfies
the loop condition. -/
def applyToffoli (c1 c2 t : ℕ) (r : QuantumRegister) : QuantumRegister :=
  let dim := 2 ^ r.num_qubits
  let c1_s := 2 ^ c1
  let c2_s := 2 ^ c2
  let t_s := 2 ^ t
  let cond : ℕ → Prop := fun i => i &&& c1_s ≠ 0 ∧ i &&& c2_s ≠ 0 ∧ i &&& t_s = 0
  if t_s < dim then
    { r with state := fun k =>
        if k < dim then
          if cond k ∨ cond (k ^^^ t_s) then r.state (k ^^^ t_s) else r.state k
        else r.state k }
  else r

/-- `QuantumRegister::applyPhaseS`: multiplies the bit-set half by `i`. -/
def applyPhaseS (target : ℕ) (r : QuantumRegister) : QuantumRegister :=
  let dim := 2 ^ r.num_qubits
  let stride := 2 ^ target
  if stride < dim then
    { r with state := fun k =>
        if k < dim then
          if k &&& stride = 0 then r.state k else r.state k * Complex.I
        else r.state k }
  else r

/-- `QuantumRegister::applyPhaseT`: multiplies the bit-set half by
`exp(iπ/4) = (1/√2, 1/√2)`. -/
def applyPhaseT (target : ℕ) (r : QuantumRegister) : QuantumRegister :=
  let dim := 2 ^ r.num_qubits
  let stride := 2 ^ target
  let phase : ℂ := ⟨INV_SQRT_2, INV_SQRT_2⟩
  if stride < dim then
    { r with state := fun k =>
        if k < dim then
          if k &&& stride = 0 then r.state k else r.state k * phase
        else r.state k }
  else r

/-- `QuantumRegister::applyRotationY`: `a ↦ c·a − s·b`, `b ↦ s·a + c·b` with
`c = cos(angle/2)`, `s = sin(angle/2)`. -/
def applyRotationY (target : ℕ) (angle : ℝ) (r : QuantumRegister) :
    QuantumRegister :=
  let dim := 2 ^ r.num_qubits
  let stride := 2 ^ target
  let c : ℝ := Real.cos (angle / 2)
  let s : ℝ := Real.sin (angle / 2)
  if stride < dim then
    { r with state := fun k =>
        if k < dim then
          if k &&& stride = 0 then
            (c : ℂ) * r.state k - (s : ℂ) * r.state (k ^^^ stride)
          else
            (s : ℂ) * r.state (k ^^^ stride) + (c : ℂ) * r.state k
        else r.state k }
  else r

/-- `QuantumRegister::applyRotationZ`: multiplies the two halves by
`z0 = exp(−i·angle/2)` and `z1 = exp(i·angle/2)`. -/
def applyRotationZ (target : ℕ) (angle : ℝ) (r : QuantumRegister) :
    QuantumRegister :=
  let dim := 2 ^ r.num_qubits
  let stride := 2 ^ target
  let z0 : ℂ := ⟨Real.cos (-angle / 2), Real.sin (-angle / 2)⟩
  let z1 : ℂ := ⟨Real.cos (angle / 2), Real.sin (angle / 2)⟩
  if stride < dim then
    { r with state := fun k =>
        if k < dim then
          if k &&& stride = 0 then r.state k * z0 else r.state k * z1
        else r.state k }
  else r

/-- `prob0` accumulated by `QuantumRegister::measure`: total squared magnitude
of the amplitudes whose `target` bit is clear. -/
def prob0 (target : ℕ) (r : QuantumRegister) : ℝ :=
  ∑ i ∈ Finset.range (2 ^ r.num_qubits),
    if i &&& 2 ^ target = 0 then Complex.normSq (r.state i) else 0

/-- The outcome drawn by `measure`: `(sample > prob0) ? 1 : 0`. -/
def measureOutcome (target : ℕ) (sample : ℝ) (r : QuantumRegister) : ℕ :=
  if sample > prob0 target r then 1 else 0

/-- The collapse loops of `measure`: zero the amplitudes of the branch not
matching `outcome`. -/
def collapseState (target : ℕ) (outcome : ℕ) (r : QuantumRegister) : Amps :=
  fun k =>
    if k < 2 ^ r.num_qubits then
      if outcome = 0 then
        (if k &&& 2 ^ target = 0 then r.state k else 0)
      else
        (if k &&& 2 ^ target = 0 then 0 else r.state k)
    else r.state k

/-- The `norm` accumulator of `measure` (before the square root): the squared
magnitude of the surviving branch. -/
def collapseNorm (target : ℕ) (outcome : ℕ) (r : QuantumRegister) : ℝ :=
  ∑ i ∈ Finset.range (2 ^ r.num_qubits),
    Complex.normSq (collapseState target outcome r i)

/-- `QuantumRegister::measure(size_t target)` with the RNG draw passed in as
`sample`: compute `prob0`, draw `outcome = (sample > prob0) ? 1 : 0`, zero
the other branch, and divide every amplitude by `√norm` — but only when
`√norm > 1e-9`. -/
def measure (target : ℕ) (sample : ℝ) (r : QuantumRegister) :
    ℕ × QuantumRegister :=
  let outcome := measureOutcome target sample r
  let zeroed := collapseState target outcome r
  let nrm := Real.sqrt (collapseNorm target outcome r)
  let final : Amps :=
    if nrm > 1e-9 then
      fun k => if k < 2 ^ r.num_qubits then zeroed k / (nrm : ℂ) else zeroed k
    else zeroed
  (outcome, { r with state := final })

/-- The sign loop of `QuantumRegister::expectationValue`: scans positions
`q < num_qubits` while `q < |string|`; a `'Z'` with bit `q` of `i` set flips
the sign; `'X'` and `'Y'` fall into the commented-out branch and do nothing. -/
def pauliSign (n : ℕ) (pauli_string : List Char) (i : ℕ) : ℤ :=
  (List.range n).foldl
    (fun sign q =>
      if q < pauli_string.length then
        if pauli_string.getD q 'I' = 'Z' ∧ i.testBit q then -sign else sign
      else sign)
    1

/-- `QuantumRegister::expectationValue`: sums `|a_i|² · sign(i)` over all basis
indices, skipping entries with `|a_i|² < 1e-15`; `'X'`/`'Y'` positions are
ignored ("require basis rotation (Todo for Phase 28)"). -/
def expectationValue (pauli_string : List Char) (r : QuantumRegister) : ℝ :=
  ∑ i ∈ Finset.range (2 ^ r.num_qubits),
    if Complex.normSq (r.state i) < 1e-15 then 0
    else Complex.normSq (r.state i) * ((pauliSign r.num_qubits pauli_string i : ℤ) : ℝ)

/-- Modelled from the spec: `enableRecording` is declared in
`QuantumRegister.hpp` but has no definition under `src/`; per §4.4
(`enable(bool)`) it sets the recorder flag. -/
def enableRecording (enable : Bool) (r : QuantumRegister) : QuantumRegister :=
  { r with recording_enabled := enable }

/-- Modelled from the spec: `clearTape` is declared in `QuantumRegister.hpp`
but has no definition under `src/`; per §4.4 (`clear()`) it empties the tape. -/
def clearTape (r : QuantumRegister) : QuantumRegister :=
  { r with tape := [] }

/-- Modelled from the spec: `getTape` is declared in `QuantumRegister.hpp` but
has no definition under `src/`; it returns the tape. -/
def getTape (r : QuantumRegister) : List RecordedGate :=
  r.tape

/-- `QuantumRegister::applyRegisteredGate` (`QuantumRegister.hpp`): dispatches
`H, X, Y, Z, CNOT, RY, RZ` to the kernels; every other kind hits
`default: break` and leaves the register untouched.  C++ reads
`gate.qubits[0]`/`gate.params[0]` without bounds checks; the embedding uses
`getD _ 0`. -/
def applyRegisteredGate (gate : RecordedGate) (r : QuantumRegister) :
    Except GateError QuantumRegister :=
  match gate.type with
  | .H => .ok (applyHadamard (gate.qubits.getD 0 0) r)
  | .X => .ok (applyX (gate.qubits.getD 0 0) r)
  | .Y => .ok (applyY (gate.qubits.getD 0 0) r)
  | .Z => .ok (applyZ (gate.qubits.getD 0 0) r)
  | .CNOT => applyCNOT (gate.qubits.getD 0 0) (gate.qubits.getD 1 0) r
  | .RY => .ok (applyRotationY (gate.qubits.getD 0 0) (gate.params.getD 0 0) r)
  | .RZ => .ok (applyRotationZ (gate.qubits.getD 0 0) (gate.params.getD 0 0) r)
  | _ => .ok r

/-- `QuantumRegister::applyRegisteredGateInverse` (`QuantumRegister.hpp`):
self-inverse kinds reuse the forward kernel, rotations negate the angle,
every other kind hits `default: break`. -/
def applyRegisteredGateInverse (gate : RecordedGate) (r : QuantumRegister) :
    Except GateError QuantumRegister :=
  match gate.type with
  | .H => .ok (applyHadamard (gate.qubits.getD 0 0) r)
  | .X => .ok (applyX (gate.qubits.getD 0 0) r)
  | .Y => .ok (applyY (gate.qubits.getD 0 0) r)
  | .Z => .ok (applyZ (gate.qubits.getD 0 0) r)
  | .CNOT => applyCNOT (gate.qubits.getD 0 0) (gate.qubits.getD 1 0) r
  | .RY => .ok (applyRotationY (gate.qubits.getD 0 0) (-(gate.params.getD 0 0)) r)
  | .RZ => .ok (applyRotationZ (gate.qubits.getD 0 0) (-(gate.params.getD 0 0)) r)
  | _ => .ok r

/-- Forward tape replay: `for (const auto &gate : tape) psi.applyRegisteredGate(gate)`. -/
def replayTape (tape : List RecordedGate) (r : QuantumRegister) :
    Except GateError QuantumRegister :=
  tape.foldlM (fun acc g => applyRegisteredGate g acc) r

/-- A call to one of the public unitary gate kernels of `QuantumRegister`
(the only way an ansatz or a caller can touch the state). -/
inductive GateCall
  | hadamard (t : ℕ)
  | x (t : ℕ)
  | y (t : ℕ)
  | z (t : ℕ)
  | cnot (c t : ℕ)
  | toffoli (c1 c2 t : ℕ)
  | phaseS (t : ℕ)
  | phaseT (t : ℕ)
  | rotationY (t : ℕ) (angle : ℝ)
  | rotationZ (t : ℕ) (angle : ℝ)

/-- Dispatch a `GateCall` to the corresponding kernel. -/
def applyGateCall (call : GateCall) (r : QuantumRegister) :
    Except GateError QuantumRegister :=
  match call with
  | .hadamard t => .ok (applyHadamard t r)
  | .x t => .ok (applyX t r)
  | .y t => .ok (applyY t r)
  | .z t => .ok (applyZ t r)
  | .cnot c t => applyCNOT c t r
  | .toffoli c1 c2 t => .ok (applyToffoli c1 c2 t r)
  | .phaseS t => .ok (applyPhaseS t r)
  | .phaseT t => .ok (applyPhaseT t r)
  | .rotationY t a => .ok (applyRotationY t a r)
  | .rotationZ t a => .ok (applyRotationZ t a r)

/-- Run a sequence of unitary kernel calls left to right. -/
def runCalls (calls : List GateCall) (r : QuantumRegister) :
    Except GateError QuantumRegister :=
  calls.foldlM (fun acc c => applyGateCall c acc) r

/-- Total squared magnitude of the register's amplitudes. -/
def normSum (r : QuantumRegister) : ℝ :=
  ∑ k ∈ Finset.range (2 ^ r.num_qubits), Complex.normSq (r.state k)

/-- `PauliTerm` of `MolecularHamiltonian.hpp`: coefficient and Pauli string
(`std::string` modelled as a list of characters). -/
structure PauliTerm where
  coefficient : ℝ
  pauli_string : List Char

/-- `AnsatzFunction` of `QuantumDifferentiator.hpp`: `(params, register) ↦`
mutated register. -/
def AnsatzFunction : Type :=
  List ℝ → QuantumRegister → QuantumRegister

/-- `QuantumDifferentiator::evaluateEnergy`: fresh `|0…0⟩` register, run the
ansatz, sum `coefficient · expectationValue(string)` over the Hamiltonian. -/
def evaluateEnergy (num_qubits : ℕ) (params : List ℝ)
    (applyAnsatz : AnsatzFunction) (hamiltonian : List PauliTerm) : ℝ :=
  let qreg := applyAnsatz params (mkRegister num_qubits)
  hamiltonian.foldl
    (fun energy term => energy + term.coefficient * expectationValue term.pauli_string qreg)
    0

/-- `QuantumDifferentiator::calculateGradients` (parameter-shift rule):
`g_i = ½·(E(θ_i + π/2) − E(θ_i − π/2))`. -/
def calculateGradients (num_qubits : ℕ) (current_params : List ℝ)
    (applyAnsatz : AnsatzFunction) (hamiltonian : List PauliTerm) : List ℝ :=
  (List.range current_params.length).map fun i =>
    let params_plus := current_params.set i (current_params.getD i 0 + Real.pi / 2)
    let params_minus := current_params.set i (current_params.getD i 0 - Real.pi / 2)
    0.5 * (evaluateEnergy num_qubits params_plus applyAnsatz hamiltonian
           - evaluateEnergy num_qubits params_minus applyAnsatz hamiltonian)

/-- The λ-initialisation loop of the adjoint engine: apply the Pauli string
(`'X'`/`'Y'`/`'Z'` per position, while `q < n` and `q < |string|`) to a copy
of ψ. -/
def pauliApplyLambda (n : ℕ) (pauli_string : List Char) (lam : QuantumRegister) :
    QuantumRegister :=
  (List.range n).foldl
    (fun l q =>
      if q < pauli_string.length then
        match pauli_string.getD q 'I' with
        | 'X' => applyX q l
        | 'Y' => applyY q l
        | 'Z' => applyZ q l
        | _ => l
      else l)
    lam

/-- The inner-product loop of the adjoint engine:
`overlap = Σ_z conj(λ_z)·ψ_z` over the `2^n` local amplitudes. -/
def innerProd (n : ℕ) (lam psi : Amps) : ℂ :=
  ∑ z ∈ Finset.range (2 ^ n), (starRingEnd ℂ) (lam z) * psi z

/-- Loop state of the reverse pass of `calculateGradientsAdjoint`:
ψ, λ, `current_param_idx` and the running gradient vector. -/
structure AdjointPass where
  psi : QuantumRegister
  lam : QuantumRegister
  param_idx : ℤ
  grads : List ℝ

/-- One iteration (tape position `k`) of the reverse pass of
`calculateGradientsAdjoint`: undo the gate on ψ; if `k` is the current
parameterized gate, re-apply it, form `⟨λ| P U_k |ψ_{k-1}⟩` with `P = Y`
for `RY` and `P = Z` for `RZ` (the sandwich `applyY … applyY` reads the
state in between and then restores it), accumulate
`2·Re(overlap·(−i/2))·coefficient`, undo the gate on ψ again and decrement
the parameter index; finally undo the gate on λ. -/
def adjointStep (coefficient : ℝ) (param_to_gate_idx : List ℕ)
    (tape : List RecordedGate) (st : AdjointPass) (k : ℕ) :
    Except GateError AdjointPass := do
  let gate := tape.getD k ⟨.H, [], []⟩
  let psi1 ← applyRegisteredGateInverse gate st.psi
  if 0 ≤ st.param_idx ∧ param_to_gate_idx.getD st.param_idx.toNat 0 = k then do
    let psi2 ← applyRegisteredGate gate psi1
    let overlap : ℂ :=
      if gate.type = .RY then
        innerProd psi2.num_qubits st.lam.state
          ((applyY (gate.qubits.getD 0 0) psi2).state)
      else if gate.type = .RZ then
        innerProd psi2.num_qubits st.lam.state
          ((applyZ (gate.qubits.getD 0 0) psi2).state)
      else 0
    let deriv : ℂ := overlap * (-(0.5 : ℂ) * Complex.I)
    let contrib : ℝ := 2 * deriv.re * coefficient
    let grads' := st.grads.set st.param_idx.toNat
      (st.grads.getD st.param_idx.toNat 0 + contrib)
    let psi3 ← applyRegisteredGateInverse gate psi2
    let lam' ← applyRegisteredGateInverse gate st.lam
    return ⟨psi3, lam', st.param_idx - 1, grads'⟩
  else do
    let lam' ← applyRegisteredGateInverse gate st.lam
    return ⟨psi1, lam', st.param_idx, st.grads⟩

/-- Per-Hamiltonian-term body of `calculateGradientsAdjoint`: skip terms with
`|coefficient| < 1e-9`; otherwise replay the tape forward onto a fresh
register, build λ, and fold the reverse pass over the tape positions in
reverse order. -/
def adjointForTerm (num_qubits : ℕ) (tape : List RecordedGate)
    (param_to_gate_idx : List ℕ) (term : PauliTerm) (grads : List ℝ) :
    Except GateError (List ℝ) :=
  if |term.coefficient| < 1e-9 then .ok grads
  else do
    let psi ← replayTape tape (mkRegister num_qubits)
    let lam := pauliApplyLambda num_qubits term.pauli_string psi
    let st0 : AdjointPass := ⟨psi, lam, (param_to_gate_idx.length : ℤ) - 1, grads⟩
    let stF ← (List.range tape.length).reverse.foldlM
      (fun st k => adjointStep term.coefficient param_to_gate_idx tape st k) st0
    return stF.grads

/-- Result of `calculateGradientsAdjoint`: the gradient vector plus a flag
recording whether the params/tape mismatch warning was printed to `cerr`. -/
structure AdjointOutcome where
  mismatch_warned : Bool
  gradients : List ℝ
deriving DecidableEq

/-- `QuantumDifferentiator::calculateGradientsAdjoint`: record the circuit on
a fresh register with recording enabled, collect the (tape positions of)
parameterized gates, warn — and continue — when their count differs from
`|current_params|`, then accumulate the per-term adjoint contributions into
a zero-initialised gradient vector. -/
def calculateGradientsAdjoint (num_qubits : ℕ) (current_params : List ℝ)
    (applyAnsatz : AnsatzFunction) (hamiltonian : List PauliTerm) :
    Except GateError AdjointOutcome := do
  let trace_reg := enableRecording true (mkRegister num_qubits)
  let traced := applyAnsatz current_params trace_reg
  let tape := getTape traced
  let param_to_gate_idx :=
    (List.range tape.length).filter fun k => (tape.getD k ⟨.H, [], []⟩).params ≠ []
  let warned : Bool := param_to_gate_idx.length != current_params.length
  let grads0 : List ℝ := List.replicate current_params.length 0
  let gradsF ← hamiltonian.foldlM
    (fun g term => adjointForTerm num_qubits tape param_to_gate_idx term g) grads0
  return ⟨warned, gradsF⟩

/-- Modelled from the spec (§4.3), for comparison with the source's
`expectationValue`: scan the string positions; `X` flips bit `q` of the
permuted index `j`; `Y` flips bit `q` and multiplies the phase by
`(bit q of i set ? −i : i)`; `Z` multiplies the phase by
`(bit q of i set ? −1 : 1)`; `I` is a no-op. -/
def specPermPhase (pauli_string : List Char) (i : ℕ) : ℕ × ℂ :=
  (List.range pauli_string.length).foldl
    (fun jphi q =>
      match pauli_string.getD q 'I' with
      | 'X' => (jphi.1 ^^^ 2 ^ q, jphi.2)
      | 'Y' => (jphi.1 ^^^ 2 ^ q,
                jphi.2 * (if i.testBit q then -Complex.I else Complex.I))
      | 'Z' => (jphi.1, jphi.2 * (if i.testBit q then -1 else 1))
      | _ => jphi)
    (i, 1)

/-- Modelled from the spec (§4.3): the permuted-index Pauli expectation
`Σ_i Re(conj(a_i) · φ · a_j)`. -/
def specPauliExpectation (pauli_string : List Char) (r : QuantumRegister) : ℝ :=
  ∑ i ∈ Finset.range (2 ^ r.num_qubits),
    ((starRingEnd ℂ) (r.state i) * (specPermPhase pauli_string i).2
      * r.state (specPermPhase pauli_string i).1).re

/-- `GateOperation` kinds handled by `ServiceImpl::applyGate`; `OTHER` stands
for any enum value that falls into the `default:` branch. -/
inductive GateOpType
  | HADAMARD | PAULI_X | CNOT | MEASURE | TOFFOLI | PHASE_S | PHASE_T
  | ROTATION_Y | ROTATION_Z | OTHER
deriving DecidableEq

/-- `GateOperation` message fields used by `ServiceImpl::applyGate`. -/
structure GateOperation where
  type : GateOpType
  target_qubit : ℕ
  control_qubit : ℕ
  second_control_qubit : ℕ
  angle : ℝ
  classical_register : ℕ

/-- `QubitEngineServiceImpl::applyGate`: dispatch a streamed `GateOperation`
to the register kernels; `MEASURE` records `(reg_id, bit)` in the response
(`reg_id = classical_register` if positive, else `target_qubit`); unknown
kinds throw `std::invalid_argument("Unknown Gate Type")`.  The measurement
RNG draw is passed in as `sample`. -/
def serviceApplyGate (qreg : QuantumRegister) (op : GateOperation) (sample : ℝ) :
    Except GateError (QuantumRegister × Option (ℕ × ℕ)) :=
  match op.type with
  | .HADAMARD => .ok (applyHadamard op.target_qubit qreg, none)
  | .PAULI_X => .ok (applyX op.target_qubit qreg, none)
  | .CNOT => do
      let r ← applyCNOT op.control_qubit op.target_qubit qreg
      return (r, none)
  | .MEASURE =>
      let res := measure op.target_qubit sample qreg
      let reg_id := if op.classical_register > 0 then op.classical_register
                    else op.target_qubit
      .ok (res.2, some (reg_id, res.1))
  | .TOFFOLI =>
      .ok (applyToffoli op.control_qubit op.second_control_qubit op.target_qubit qreg, none)
  | .PHASE_S => .ok (applyPhaseS op.target_qubit qreg, none)
  | .PHASE_T => .ok (applyPhaseT op.target_qubit qreg, none)
  | .ROTATION_Y => .ok (applyRotationY op.target_qubit op.angle qreg, none)
  | .ROTATION_Z => .ok (applyRotationZ op.target_qubit op.angle qreg, none)
  | .OTHER => .error (.invalidArgument "Unknown Gate Type")

/-- `QubitEngineServiceImpl::StreamGates`: the channel's register is
hard-coded to `int num_qubits = 3`. -/
def streamGatesInit : QuantumRegister :=
  mkRegister 3

/-- The H2 ansatz used by the VQE test and spec scenario 6:
`RY(θ)` on qubit 0. -/
def ansatzRY : AnsatzFunction :=
  fun p qreg => applyRotationY 0 (p.getD 0 0) qreg

/-- The Hamiltonian `{(1.0, "Z")}` of spec scenario 6 and the repository's
`GradientDescentTest`. -/
def hamZ : List PauliTerm :=
  [⟨1, ['Z']⟩]

/-- The `n = 1` register holding `|1⟩` (e.g. the result of `X(0)` on `|0⟩`). -/
def ket1Register : QuantumRegister :=
  ⟨1, fun k => if k = 1 then 1 else 0, false, []⟩

/-- The `n = 2` register holding `|01⟩` (qubit 0 set), used to exercise
`applyToffoli` with equal controls. -/
def q2Register01 : QuantumRegister :=
  ⟨2, fun k => if k = 1 then 1 else 0, false, []⟩

/-! ### Bitwise and summation helpers -/

lemma and_pow_eq_zero_iff (k t : ℕ) : k &&& 2 ^ t = 0 ↔ k.testBit t = false := by
  rw [Nat.and_two_pow]
  rcases h : k.testBit t <;> simp [h]

lemma and_pow_ne_zero_iff (k t : ℕ) : k &&& 2 ^ t ≠ 0 ↔ k.testBit t = true := by
  rw [Ne, and_pow_eq_zero_iff]
  simp

lemma xor_pow_lt {k t n : ℕ} (ht : t < n) (hk : k < 2 ^ n) : k ^^^ 2 ^ t < 2 ^ n :=
  Nat.xor_lt_two_pow hk ((Nat.pow_lt_pow_iff_right one_lt_two).mpr ht)

lemma testBit_xor_pow_self (k t : ℕ) : (k ^^^ 2 ^ t).testBit t = ! k.testBit t := by
  simp [Nat.testBit_xor, Nat.testBit_two_pow_self]

lemma testBit_xor_pow_ne {c t : ℕ} (h : c ≠ t) (k : ℕ) :
    (k ^^^ 2 ^ t).testBit c = k.testBit c := by
  simp [Nat.testBit_xor, Nat.testBit_two_pow_of_ne (Ne.symm h)]

lemma sum_range_two_pow_split (n t : ℕ) (ht : t < n) (f : ℕ → ℝ) :
    ∑ k ∈ Finset.range (2 ^ n), f k
      = ∑ k ∈ (Finset.range (2 ^ n)).filter (fun k => k &&& 2 ^ t = 0),
          (f k + f (k ^^^ 2 ^ t)) := by
  rw [Finset.sum_add_distrib]
  rw [← Finset.sum_filter_add_sum_filter_not (Finset.range (2 ^ n))
    (fun k => k &&& 2 ^ t = 0) f]
  congr 1
  refine Finset.sum_nbij' (fun k => k ^^^ 2 ^ t) (fun k => k ^^^ 2 ^ t) ?_ ?_ ?_ ?_ ?_
  · intro a ha
    rw [Finset.mem_filter, Finset.mem_range] at ha ⊢
    refine ⟨xor_pow_lt ht ha.1, ?_⟩
    rw [and_pow_eq_zero_iff, testBit_xor_pow_self]
    rw [(and_pow_ne_zero_iff a t).mp ha.2]
    rfl
  · intro a ha
    rw [Finset.mem_filter, Finset.mem_range] at ha ⊢
    refine ⟨xor_pow_lt ht ha.1, ?_⟩
    intro hc
    rw [and_pow_eq_zero_iff, testBit_xor_pow_self,
      (and_pow_eq_zero_iff a t).mp ha.2] at hc
    simp at hc
  · intro a _
    exact Nat.xor_cancel_right _ _
  · intro a _
    exact Nat.xor_cancel_right _ _
  · intro a _
    rw [Nat.xor_cancel_right]

lemma sum_normSq_pair_update (n t : ℕ) (ht : t < n) (s : Amps) (F G : ℂ → ℂ → ℂ)
    (hFG : ∀ a b, Complex.normSq (F a b) + Complex.normSq (G a b)
                    = Complex.normSq a + Complex.normSq b) :
    ∑ k ∈ Finset.range (2 ^ n),
        Complex.normSq (if k &&& 2 ^ t = 0 then F (s k) (s (k ^^^ 2 ^ t))
                        else G (s (k ^^^ 2 ^ t)) (s k))
      = ∑ k ∈ Finset.range (2 ^ n), Complex.normSq (s k) := by
  rw [sum_range_two_pow_split n t ht, sum_range_two_pow_split n t ht
    (fun k => Complex.normSq (s k))]
  refine Finset.sum_congr rfl ?_
  intro k hk
  rw [Finset.mem_filter] at hk
  have h1 : ¬ (k ^^^ 2 ^ t) &&& 2 ^ t = 0 := by
    rw [and_pow_eq_zero_iff, testBit_xor_pow_self]
    rw [and_pow_eq_zero_iff] at hk
    simp [hk.2]
  rw [if_pos hk.2, if_neg h1, Nat.xor_cancel_right]
  exact hFG _ _

lemma sum_normSq_perm (n : ℕ) (σ : ℕ → ℕ) (s : Amps)
    (hmem : ∀ k, k < 2 ^ n → σ k < 2 ^ n)
    (hinv : ∀ k, k < 2 ^ n → σ (σ k) = k) :
    ∑ k ∈ Finset.range (2 ^ n), Complex.normSq (s (σ k))
      = ∑ k ∈ Finset.range (2 ^ n), Complex.normSq (s k) := by
  refine Finset.sum_nbij' σ σ ?_ ?_ ?_ ?_ ?_
  · intro a ha
    rw [Finset.mem_range] at ha ⊢
    exact hmem a ha
  · intro a ha
    rw [Finset.mem_range] at ha ⊢
    exact hmem a ha
  · intro a ha
    exact hinv a (Finset.mem_range.mp ha)
  · intro a ha
    exact hinv a (Finset.mem_range.mp ha)
  · intro a _
    rfl

/-! ### Pairwise norm identities for the 2×2 kernels -/

lemma normSq_parallelogram (a b : ℂ) :
    Complex.normSq (a + b) + Complex.normSq (a - b)
      = 2 * Complex.normSq a + 2 * Complex.normSq b := by
  simp only [Complex.normSq_apply, Complex.add_re, Complex.add_im, Complex.sub_re,
    Complex.sub_im]
  ring

lemma normSq_INV_SQRT_2 : Complex.normSq ((INV_SQRT_2 : ℝ) : ℂ) = 1 / 2 := by
  rw [Complex.normSq_ofReal, INV_SQRT_2, div_mul_div_comm, one_mul,
    Real.mul_self_sqrt (by norm_num)]

lemma cos_mul_self_add_sin_mul_self (x : ℝ) :
    Real.cos x * Real.cos x + Real.sin x * Real.sin x = 1 := by
  rw [← Real.sin_sq_add_cos_sq x]
  ring

lemma pair_hadamard (a b : ℂ) :
    Complex.normSq ((a + b) * (INV_SQRT_2 : ℂ))
        + Complex.normSq ((a - b) * (INV_SQRT_2 : ℂ))
      = Complex.normSq a + Complex.normSq b := by
  rw [Complex.normSq_mul, Complex.normSq_mul, ← add_mul, normSq_parallelogram,
    normSq_INV_SQRT_2]
  ring

lemma pair_rotation (c s : ℝ) (h : c * c + s * s = 1) (a b : ℂ) :
    Complex.normSq ((c : ℂ) * a - (s : ℂ) * b)
        + Complex.normSq ((s : ℂ) * a + (c : ℂ) * b)
      = Complex.normSq a + Complex.normSq b := by
  simp only [Complex.normSq_apply, Complex.sub_re, Complex.sub_im, Complex.add_re,
    Complex.add_im, Complex.mul_re, Complex.mul_im, Complex.ofReal_re,
    Complex.ofReal_im]
  ring_nf
  linear_combination (a.re * a.re + a.im * a.im + b.re * b.re + b.im * b.im) * h

/-! ### Norm preservation of the unitary kernels -/

lemma normSum_mk_state (r : QuantumRegister) (f : Amps) :
    normSum { r with state := f }
      = ∑ k ∈ Finset.range (2 ^ r.num_qubits), Complex.normSq (f k) :=
  rfl

lemma two_pow_lt_iff {t n : ℕ} : (2 : ℕ) ^ t < 2 ^ n ↔ t < n :=
  Nat.pow_lt_pow_iff_right one_lt_two

lemma normSum_pair_kernel (r : QuantumRegister) (t : ℕ) (F G : ℂ → ℂ → ℂ) (f : Amps)
    (hFG : ∀ a b, Complex.normSq (F a b) + Complex.normSq (G a b)
                    = Complex.normSq a + Complex.normSq b)
    (h : (2 : ℕ) ^ t < 2 ^ r.num_qubits)
    (hf : ∀ k, k < 2 ^ r.num_qubits →
      f k = if k &&& 2 ^ t = 0 then F (r.state k) (r.state (k ^^^ 2 ^ t))
            else G (r.state (k ^^^ 2 ^ t)) (r.state k)) :
    normSum { r with state := f } = normSum r := by
  rw [normSum_mk_state, normSum]
  calc ∑ k ∈ Finset.range (2 ^ r.num_qubits), Complex.normSq (f k)
      = ∑ k ∈ Finset.range (2 ^ r.num_qubits),
          Complex.normSq (if k &&& 2 ^ t = 0 then F (r.state k) (r.state (k ^^^ 2 ^ t))
            else G (r.state (k ^^^ 2 ^ t)) (r.state k)) := by
        refine Finset.sum_congr rfl ?_
        intro k hk
        rw [hf k (Finset.mem_range.mp hk)]
    _ = ∑ k ∈ Finset.range (2 ^ r.num_qubits), Complex.normSq (r.state k) :=
        sum_normSq_pair_update r.num_qubits t (two_pow_lt_iff.mp h) r.state F G hFG

lemma normSum_perm_kernel (r : QuantumRegister) (f : Amps) (σ : ℕ → ℕ)
    (hf : ∀ k, k < 2 ^ r.num_qubits → f k = r.state (σ k))
    (hmem : ∀ k, k < 2 ^ r.num_qubits → σ k < 2 ^ r.num_qubits)
    (hinv : ∀ k, k < 2 ^ r.num_qubits → σ (σ k) = k) :
    normSum { r with state := f } = normSum r := by
  rw [normSum_mk_state, normSum]
  calc ∑ k ∈ Finset.range (2 ^ r.num_qubits), Complex.normSq (f k)
      = ∑ k ∈ Finset.range (2 ^ r.num_qubits), Complex.normSq (r.state (σ k)) := by
        refine Finset.sum_congr rfl ?_
        intro k hk
        rw [hf k (Finset.mem_range.mp hk)]
    _ = ∑ k ∈ Finset.range (2 ^ r.num_qubits), Complex.normSq (r.state k) :=
        sum_normSq_perm r.num_qubits σ r.state hmem hinv

lemma normSum_applyHadamard (t : ℕ) (r : QuantumRegister) :
    normSum (applyHadamard t r) = normSum r := by
  simp only [applyHadamard]
  split_ifs with h
  · refine normSum_pair_kernel r t
      (fun a b => (a + b) * (INV_SQRT_2 : ℂ))
      (fun a b => (a - b) * (INV_SQRT_2 : ℂ)) _
      pair_hadamard h ?_
    intro k hk
    dsimp only
    rw [if_pos hk]
  · rfl

lemma normSum_applyX (t : ℕ) (r : QuantumRegister) :
    normSum (applyX t r) = normSum r := by
  simp only [applyX]
  split_ifs with h
  · refine normSum_perm_kernel r _ (fun k => k ^^^ 2 ^ t) ?_
      (fun k hk => xor_pow_lt (two_pow_lt_iff.mp h) hk)
      (fun k _ => Nat.xor_cancel_right _ _)
    intro k hk
    dsimp only
    rw [if_pos hk]
  · rfl

lemma normSum_applyY (t : ℕ) (r : QuantumRegister) :
    normSum (applyY t r) = normSum r := by
  simp only [applyY]
  split_ifs with h
  · refine normSum_pair_kernel r t
      (fun a b => -Complex.I * b) (fun a b => Complex.I * a) _ ?_ h ?_
    · intro a b
      simp [Complex.normSq_mul]
      ring
    · intro k hk
      dsimp only
      rw [if_pos hk]
  · rfl

lemma normSum_applyZ (t : ℕ) (r : QuantumRegister) :
    normSum (applyZ t r) = normSum r := by
  simp only [applyZ]
  split_ifs with h
  · refine normSum_pair_kernel r t (fun a b => a) (fun a b => -b) _ ?_ h ?_
    · intro a b
      simp [Complex.normSq_neg]
    · intro k hk
      dsimp only
      rw [if_pos hk]
  · rfl

lemma normSum_applyPhaseS (t : ℕ) (r : QuantumRegister) :
    normSum (applyPhaseS t r) = normSum r := by
  simp only [applyPhaseS]
  split_ifs with h
  · refine normSum_pair_kernel r t (fun a b => a) (fun a b => b * Complex.I) _ ?_ h ?_
    · intro a b
      simp [Complex.normSq_mul]
    · intro k hk
      dsimp only
      rw [if_pos hk]
  · rfl

lemma normSq_phaseT : Complex.normSq (⟨INV_SQRT_2, INV_SQRT_2⟩ : ℂ) = 1 := by
  rw [Complex.normSq_mk, INV_SQRT_2, div_mul_div_comm, one_mul,
    Real.mul_self_sqrt (by norm_num)]
  norm_num

lemma normSum_applyPhaseT (t : ℕ) (r : QuantumRegister) :
    normSum (applyPhaseT t r) = normSum r := by
  simp only [applyPhaseT]
  split_ifs with h
  · refine normSum_pair_kernel r t (fun a b => a)
      (fun a b => b * (⟨INV_SQRT_2, INV_SQRT_2⟩ : ℂ)) _ ?_ h ?_
    · intro a b
      rw [Complex.normSq_mul, normSq_phaseT]
      ring
    · intro k hk
      dsimp only
      rw [if_pos hk]
  · rfl

lemma normSum_applyRotationY (t : ℕ) (angle : ℝ) (r : QuantumRegister) :
    normSum (applyRotationY t angle r) = normSum r := by
  simp only [applyRotationY]
  split_ifs with h
  · refine normSum_pair_kernel r t
      (fun a b => (Real.cos (angle / 2) : ℂ) * a - (Real.sin (angle / 2) : ℂ) * b)
      (fun a b => (Real.sin (angle / 2) : ℂ) * a + (Real.cos (angle / 2) : ℂ) * b) _
      (pair_rotation (Real.cos (angle / 2)) (Real.sin (angle / 2))
        (cos_mul_self_add_sin_mul_self (angle / 2))) h ?_
    intro k hk
    dsimp only
    rw [if_pos hk]
  · rfl

lemma normSum_applyRotationZ (t : ℕ) (angle : ℝ) (r : QuantumRegister) :
    normSum (applyRotationZ t angle r) = normSum r := by
  simp only [applyRotationZ]
  split_ifs with h
  · refine normSum_pair_kernel r t
      (fun a b => a * (⟨Real.cos (-angle / 2), Real.sin (-angle / 2)⟩ : ℂ))
      (fun a b => b * (⟨Real.cos (angle / 2), Real.sin (angle / 2)⟩ : ℂ)) _ ?_ h ?_
    · intro a b
      rw [Complex.normSq_mul, Complex.normSq_mul,
        Complex.normSq_mk (Real.cos (-angle / 2)) (Real.sin (-angle / 2)),
        Complex.normSq_mk (Real.cos (angle / 2)) (Real.sin (angle / 2)),
        cos_mul_self_add_sin_mul_self, cos_mul_self_add_sin_mul_self]
      ring
    · intro k hk
      dsimp only
      rw [if_pos hk]
  · rfl

lemma normSum_applyToffoli (c1 c2 t : ℕ) (r : QuantumRegister) :
    normSum (applyToffoli c1 c2 t r) = normSum r := by
  simp only [applyToffoli]
  split_ifs with h
  · have ht : t < r.num_qubits := two_pow_lt_iff.mp h
    refine normSum_perm_kernel r _
      (fun k => if (k &&& 2 ^ c1 ≠ 0 ∧ k &&& 2 ^ c2 ≠ 0 ∧ k &&& 2 ^ t = 0)
          ∨ ((k ^^^ 2 ^ t) &&& 2 ^ c1 ≠ 0 ∧ (k ^^^ 2 ^ t) &&& 2 ^ c2 ≠ 0
              ∧ (k ^^^ 2 ^ t) &&& 2 ^ t = 0)
        then k ^^^ 2 ^ t else k) ?_ ?_ ?_
    · intro k hk
      dsimp only
      rw [if_pos hk, apply_ite r.state]
    · intro k hk
      dsimp only
      split_ifs with hc
      · exact xor_pow_lt ht hk
      · exact hk
    · intro k _
      dsimp only
      by_cases hc : (k &&& 2 ^ c1 ≠ 0 ∧ k &&& 2 ^ c2 ≠ 0 ∧ k &&& 2 ^ t = 0)
          ∨ ((k ^^^ 2 ^ t) &&& 2 ^ c1 ≠ 0 ∧ (k ^^^ 2 ^ t) &&& 2 ^ c2 ≠ 0
              ∧ (k ^^^ 2 ^ t) &&& 2 ^ t = 0)
      · rw [if_pos hc]
        have hc' : ((k ^^^ 2 ^ t) &&& 2 ^ c1 ≠ 0 ∧ (k ^^^ 2 ^ t) &&& 2 ^ c2 ≠ 0
              ∧ (k ^^^ 2 ^ t) &&& 2 ^ t = 0)
            ∨ (((k ^^^ 2 ^ t) ^^^ 2 ^ t) &&& 2 ^ c1 ≠ 0
                ∧ ((k ^^^ 2 ^ t) ^^^ 2 ^ t) &&& 2 ^ c2 ≠ 0
                ∧ ((k ^^^ 2 ^ t) ^^^ 2 ^ t) &&& 2 ^ t = 0) := by
          rw [Nat.xor_cancel_right]
          exact hc.symm
        rw [if_pos hc', Nat.xor_cancel_right]
      · rw [if_neg hc, if_neg hc]
  · rfl

lemma normSum_applyCNOT {c t : ℕ} {r r' : QuantumRegister}
    (h : applyCNOT c t r = .ok r') : normSum r' = normSum r := by
  simp only [applyCNOT] at h
  split_ifs at h with hct hloc
  · obtain ⟨hc, ht⟩ := hloc
    have hct' : c ≠ t := hct
    rw [Except.ok.injEq] at h
    subst h
    have htlt : t < r.num_qubits := two_pow_lt_iff.mp ht
    refine normSum_perm_kernel r _
      (fun k => if k &&& 2 ^ c ≠ 0 then k ^^^ 2 ^ t else k) ?_ ?_ ?_
    · intro k hklt
      dsimp only
      rw [apply_ite r.state]
      by_cases hb : k &&& 2 ^ c ≠ 0
      · rw [if_pos ⟨hklt, hb⟩, if_pos hb]
      · rw [if_neg fun hx => hb hx.2, if_neg hb]
    · intro k hk
      dsimp only
      split_ifs with hb
      · exact xor_pow_lt htlt hk
      · exact hk
    · intro k _
      dsimp only
      by_cases hb : k &&& 2 ^ c ≠ 0
      · rw [if_pos hb]
        have hb' : (k ^^^ 2 ^ t) &&& 2 ^ c ≠ 0 := by
          rw [and_pow_ne_zero_iff] at hb ⊢
          rw [testBit_xor_pow_ne hct' k]
          exact hb
        rw [if_pos hb', Nat.xor_cancel_right]
      · rw [if_neg hb, if_neg hb]
  · rw [Except.ok.injEq] at h
    subst h
    rfl

lemma normSum_applyGateCall {call : GateCall} {r r' : QuantumRegister}
    (h : applyGateCall call r = .ok r') : normSum r' = normSum r := by
  cases call with
  | hadamard t =>
      simp only [applyGateCall, Except.ok.injEq] at h
      subst h
      exact normSum_applyHadamard t r
  | x t =>
      simp only [applyGateCall, Except.ok.injEq] at h
      subst h
      exact normSum_applyX t r
  | y t =>
      simp only [applyGateCall, Except.ok.injEq] at h
      subst h
      exact normSum_applyY t r
  | z t =>
      simp only [applyGateCall, Except.ok.injEq] at h
      subst h
      exact normSum_applyZ t r
  | cnot c t =>
      simp only [applyGateCall] at h
      exact normSum_applyCNOT h
  | toffoli c1 c2 t =>
      simp only [applyGateCall, Except.ok.injEq] at h
      subst h
      exact normSum_applyToffoli c1 c2 t r
  | phaseS t =>
      simp only [applyGateCall, Except.ok.injEq] at h
      subst h
      exact normSum_applyPhaseS t r
  | phaseT t =>
      simp only [applyGateCall, Except.ok.injEq] at h
      subst h
      exact normSum_applyPhaseT t r
  | rotationY t a =>
      simp only [applyGateCall, Except.ok.injEq] at h
      subst h
      exact normSum_applyRotationY t a r
  | rotationZ t a =>
      simp only [applyGateCall, Except.ok.injEq] at h
      subst h
      exact normSum_applyRotationZ t a r

lemma runCalls_cons (c : GateCall) (cs : List GateCall) (r : QuantumRegister) :
    runCalls (c :: cs) r = (applyGateCall c r) >>= fun r1 => runCalls cs r1 := by
  simp only [runCalls, List.foldlM_cons]

lemma runCalls_normSum :
    ∀ (calls : List GateCall) (r r' : QuantumRegister),
      runCalls calls r = .ok r' → normSum r' = normSum r := by
  intro calls
  induction calls with
  | nil =>
      intro r r' h
      have h' : r = r' := Except.ok.inj h
      rw [h']
  | cons c cs ih =>
      intro r r' h
      rw [runCalls_cons] at h
      cases hstep : applyGateCall c r with
      | error e =>
          rw [hstep] at h
          exact absurd h (by simp [Bind.bind, Except.bind])
      | ok r1 =>
          rw [hstep] at h
          have h2 : runCalls cs r1 = .ok r' := h
          rw [ih r1 r' h2, normSum_applyGateCall hstep]

lemma normSum_mkRegister (n : ℕ) : normSum (mkRegister n) = 1 := by
  rw [normSum, mkRegister]
  simp only [apply_ite Complex.normSq, Complex.normSq_one, Complex.normSq_zero]
  rw [Finset.sum_ite_eq' (Finset.range (2 ^ n)) 0 (fun _ => (1 : ℝ))]
  simp [Finset.mem_range, pow_pos]

/-! ### Measurement collapse lemmas -/

lemma collapseNorm_nonneg (t o : ℕ) (r : QuantumRegister) :
    0 ≤ collapseNorm t o r :=
  Finset.sum_nonneg fun _ _ => Complex.normSq_nonneg _

lemma sqrt_gt_of_mass {m : ℝ} (h : 1e-18 < m) : Real.sqrt m > 1e-9 := by
  have h1 : Real.sqrt 1e-18 < Real.sqrt m := Real.sqrt_lt_sqrt (by norm_num) h
  have h2 : Real.sqrt 1e-18 = 1e-9 := by
    rw [show (1e-18 : ℝ) = (1e-9) ^ 2 by norm_num, Real.sqrt_sq (by norm_num)]
  rw [h2] at h1
  exact h1

lemma measure_fst (t : ℕ) (sample : ℝ) (r : QuantumRegister) :
    (measure t sample r).1 = measureOutcome t sample r :=
  rfl

lemma measure_outcome_zero_or_one (t : ℕ) (sample : ℝ) (r : QuantumRegister) :
    (measure t sample r).1 = 0 ∨ (measure t sample r).1 = 1 := by
  rw [measure_fst, measureOutcome]
  split_ifs with h
  · exact Or.inr rfl
  · exact Or.inl rfl

lemma measure_snd_state (t : ℕ) (sample : ℝ) (r : QuantumRegister) :
    (measure t sample r).2.state
      = if Real.sqrt (collapseNorm t (measureOutcome t sample r) r) > 1e-9 then
          fun k => if k < 2 ^ r.num_qubits then
            collapseState t (measureOutcome t sample r) r k
              / ((Real.sqrt (collapseNorm t (measureOutcome t sample r) r) : ℝ) : ℂ)
          else collapseState t (measureOutcome t sample r) r k
        else collapseState t (measureOutcome t sample r) r :=
  rfl

lemma measure_snd_num_qubits (t : ℕ) (sample : ℝ) (r : QuantumRegister) :
    (measure t sample r).2.num_qubits = r.num_qubits :=
  rfl

lemma measure_normSum_restored (t : ℕ) (sample : ℝ) (r : QuantumRegister)
    (h : 1e-18 < collapseNorm t (measureOutcome t sample r) r) :
    normSum (measure t sample r).2 = 1 := by
  have hm0 : (0 : ℝ) < collapseNorm t (measureOutcome t sample r) r :=
    lt_trans (by norm_num) h
  have hs : Real.sqrt (collapseNorm t (measureOutcome t sample r) r) > 1e-9 :=
    sqrt_gt_of_mass h
  rw [normSum, measure_snd_num_qubits]
  have hstate := measure_snd_state t sample r
  rw [if_pos hs] at hstate
  rw [hstate]
  have hst : ∀ k ∈ Finset.range (2 ^ r.num_qubits),
      Complex.normSq (if k < 2 ^ r.num_qubits then
          collapseState t (measureOutcome t sample r) r k
            / ((Real.sqrt (collapseNorm t (measureOutcome t sample r) r) : ℝ) : ℂ)
        else collapseState t (measureOutcome t sample r) r k)
      = Complex.normSq (collapseState t (measureOutcome t sample r) r k)
          / collapseNorm t (measureOutcome t sample r) r := by
    intro k hk
    rw [if_pos (Finset.mem_range.mp hk), Complex.normSq_div, Complex.normSq_ofReal,
      Real.mul_self_sqrt hm0.le]
  rw [Finset.sum_congr rfl hst, ← Finset.sum_div, ← collapseNorm,
    div_self (ne_of_gt hm0)]

/-! ### Tape behaviour of the kernels (nothing ever records) -/

lemma tape_applyHadamard (t : ℕ) (r : QuantumRegister) :
    (applyHadamard t r).tape = r.tape := by
  simp only [applyHadamard]
  split_ifs <;> rfl

lemma tape_applyX (t : ℕ) (r : QuantumRegister) : (applyX t r).tape = r.tape := by
  simp only [applyX]
  split_ifs <;> rfl

lemma tape_applyY (t : ℕ) (r : QuantumRegister) : (applyY t r).tape = r.tape := by
  simp only [applyY]
  split_ifs <;> rfl

lemma tape_applyZ (t : ℕ) (r : QuantumRegister) : (applyZ t r).tape = r.tape := by
  simp only [applyZ]
  split_ifs <;> rfl

lemma tape_applyToffoli (c1 c2 t : ℕ) (r : QuantumRegister) :
    (applyToffoli c1 c2 t r).tape = r.tape := by
  simp only [applyToffoli]
  split_ifs <;> rfl

lemma tape_applyPhaseS (t : ℕ) (r : QuantumRegister) :
    (applyPhaseS t r).tape = r.tape := by
  simp only [applyPhaseS]
  split_ifs <;> rfl

lemma tape_applyPhaseT (t : ℕ) (r : QuantumRegister) :
    (applyPhaseT t r).tape = r.tape := by
  simp only [applyPhaseT]
  split_ifs <;> rfl

lemma tape_applyRotationY (t : ℕ) (angle : ℝ) (r : QuantumRegister) :
    (applyRotationY t angle r).tape = r.tape := by
  simp only [applyRotationY]
  split_ifs <;> rfl

lemma tape_applyRotationZ (t : ℕ) (angle : ℝ) (r : QuantumRegister) :
    (applyRotationZ t angle r).tape = r.tape := by
  simp only [applyRotationZ]
  split_ifs <;> rfl

lemma tape_applyCNOT {c t : ℕ} {r r' : QuantumRegister}
    (h : applyCNOT c t r = .ok r') : r'.tape = r.tape := by
  simp only [applyCNOT] at h
  split_ifs at h with hct hloc
  · rw [Except.ok.injEq] at h
    subst h
    rfl
  · rw [Except.ok.injEq] at h
    subst h
    rfl

lemma tape_applyGateCall {call : GateCall} {r r' : QuantumRegister}
    (h : applyGateCall call r = .ok r') : r'.tape = r.tape := by
  cases call with
  | cnot c t =>
      simp only [applyGateCall] at h
      exact tape_applyCNOT h
  | hadamard t =>
      simp only [applyGateCall, Except.ok.injEq] at h
      subst h
      exact tape_applyHadamard t r
  | x t =>
      simp only [applyGateCall, Except.ok.injEq] at h
      subst h
      exact tape_applyX t r
  | y t =>
      simp only [applyGateCall, Except.ok.injEq] at h
      subst h
      exact tape_applyY t r
  | z t =>
      simp only [applyGateCall, Except.ok.injEq] at h
      subst h
      exact tape_applyZ t r
  | toffoli c1 c2 t =>
      simp only [applyGateCall, Except.ok.injEq] at h
      subst h
      exact tape_applyToffoli c1 c2 t r
  | phaseS t =>
      simp only [applyGateCall, Except.ok.injEq] at h
      subst h
      exact tape_applyPhaseS t r
  | phaseT t =>
      simp only [applyGateCall, Except.ok.injEq] at h
      subst h
      exact tape_applyPhaseT t r
  | rotationY t a =>
      simp only [applyGateCall, Except.ok.injEq] at h
      subst h
      exact tape_applyRotationY t a r
  | rotationZ t a =>
      simp only [applyGateCall, Except.ok.injEq] at h
      subst h
      exact tape_applyRotationZ t a r

/-! ### Adjoint engine on an (always) empty tape -/

lemma except_bind_ok {a b : Type} (x : a) (f : a → Except GateError b) :
    (Except.ok x >>= f) = f x :=
  rfl

lemma replayTape_nil (r : QuantumRegister) : replayTape [] r = .ok r :=
  rfl

lemma adjointForTerm_empty_tape (n : ℕ) (term : PauliTerm) (grads : List ℝ) :
    adjointForTerm n [] [] term grads = .ok grads := by
  rw [adjointForTerm]
  split_ifs with h
  · rfl
  · rfl

lemma foldlM_adjointForTerm_empty (ham : List PauliTerm) (n : ℕ) (grads : List ℝ) :
    ham.foldlM (fun g term => adjointForTerm n [] [] term g) grads = .ok grads := by
  induction ham generalizing grads with
  | nil => rfl
  | cons term rest ih =>
      rw [List.foldlM_cons, adjointForTerm_empty_tape n term grads]
      exact ih grads

lemma calculateGradientsAdjoint_empty (n : ℕ) (params : List ℝ)
    (ansatz : AnsatzFunction) (ham : List PauliTerm)
    (htape : (ansatz params (enableRecording true (mkRegister n))).tape = []) :
    calculateGradientsAdjoint n params ansatz ham
      = .ok ⟨0 != params.length, List.replicate params.length 0⟩ := by
  rw [calculateGradientsAdjoint, getTape, htape]
  simp only [List.length_nil, List.range_zero, List.filter_nil,
    foldlM_adjointForTerm_empty, except_bind_ok]
  rfl

/-! ### Measurement collapse, pointwise -/

lemma measureOutcome_zero_or_one (t : ℕ) (sample : ℝ) (r : QuantumRegister) :
    measureOutcome t sample r = 0 ∨ measureOutcome t sample r = 1 := by
  rw [measureOutcome]
  split_ifs
  · exact Or.inr rfl
  · exact Or.inl rfl

lemma collapseState_of_ne (t o k : ℕ) (r : QuantumRegister)
    (hk : k < 2 ^ r.num_qubits) (ho : o = 0 ∨ o = 1)
    (hne : (if k &&& 2 ^ t = 0 then 0 else 1) ≠ o) :
    collapseState t o r k = 0 := by
  rw [collapseState, if_pos hk]
  by_cases hb : k &&& 2 ^ t = 0
  · rw [if_pos hb] at hne
    rw [if_neg (fun h0 => hne h0.symm), if_pos hb]
  · rw [if_neg hb] at hne
    rcases ho with h0 | h1
    · rw [if_pos h0, if_neg hb]
    · exact absurd h1.symm hne
  
lemma collapseState_of_eq (t o k : ℕ) (r : QuantumRegister)
    (hk : k < 2 ^ r.num_qubits)
    (heq : (if k &&& 2 ^ t = 0 then 0 else 1) = o) :
    collapseState t o r k = r.state k := by
  rw [collapseState, if_pos hk]
  by_cases hb : k &&& 2 ^ t = 0
  · rw [if_pos hb] at heq
    rw [if_pos heq.symm, if_pos hb]
  · rw [if_neg hb] at heq
    rw [if_neg (fun h0 => by rw [← heq] at h0; exact absurd h0 one_ne_zero), if_neg hb]

lemma measure_state_of_ne (t : ℕ) (sample : ℝ) (r : QuantumRegister) (k : ℕ)
    (hk : k < 2 ^ r.num_qubits)
    (hne : (if k &&& 2 ^ t = 0 then 0 else 1) ≠ (measure t sample r).1) :
    (measure t sample r).2.state k = 0 := by
  rw [measure_fst] at hne
  have hz := collapseState_of_ne t (measureOutcome t sample r) k r hk
    (measureOutcome_zero_or_one t sample r) hne
  rw [measure_snd_state]
  split_ifs with hs
  · dsimp only
    rw [if_pos hk, hz, zero_div]
  · exact hz

lemma measure_state_of_eq (t : ℕ) (sample : ℝ) (r : QuantumRegister) (k : ℕ)
    (hk : k < 2 ^ r.num_qubits)
    (heq : (if k &&& 2 ^ t = 0 then 0 else 1) = (measure t sample r).1)
    (hmass : 1e-18 < collapseNorm t (measureOutcome t sample r) r) :
    (measure t sample r).2.state k
      = r.state k
          / ((Real.sqrt (collapseNorm t (measureOutcome t sample r) r) : ℝ) : ℂ) := by
  rw [measure_fst] at heq
  rw [measure_snd_state, if_pos (sqrt_gt_of_mass hmass)]
  rw [if_pos hk, collapseState_of_eq t (measureOutcome t sample r) k r hk heq]

/-! ### Concrete evaluations -/

lemma applyRotationY_mk1 (angle : ℝ) :
    applyRotationY 0 angle (mkRegister 1)
      = ⟨1, fun k => if k = 0 then ((Real.cos (angle / 2) : ℝ) : ℂ)
          else if k = 1 then ((Real.sin (angle / 2) : ℝ) : ℂ) else 0, false, []⟩ := by
  rw [applyRotationY]
  rw [if_pos (by decide : (2 : ℕ) ^ 0 < 2 ^ (mkRegister 1).num_qubits)]
  show QuantumRegister.mk 1 _ false [] = QuantumRegister.mk 1 _ false []
  congr 1
  funext k
  by_cases h0 : k = 0
  · subst h0
    norm_num [mkRegister]
  · by_cases h1 : k = 1
    · subst h1
      norm_num [mkRegister]
    · have h2 : ¬ k < 2 ^ (mkRegister 1).num_qubits := by
        show ¬ k < 2
        omega
      rw [if_neg h2, if_neg h0, if_neg h1]
      show (if k = 0 then (1 : ℂ) else 0) = 0
      rw [if_neg h0]

lemma pauliSign_Z_zero : pauliSign 1 [Char.ofNat 90] 0 = 1 := by
  decide

lemma pauliSign_Z_one : pauliSign 1 [Char.ofNat 90] 1 = -1 := by
  decide

lemma expectationValue_Z_pair (a b : ℂ) :
    expectationValue ['Z'] ⟨1, fun k => if k = 0 then a else if k = 1 then b else 0,
        false, []⟩
      = (if Complex.normSq a < 1e-15 then 0 else Complex.normSq a)
        - (if Complex.normSq b < 1e-15 then 0 else Complex.normSq b) := by
  rw [expectationValue]
  show (∑ i ∈ Finset.range (2 ^ 1), _) = _
  rw [show (2 : ℕ) ^ 1 = 2 from rfl, Finset.sum_range_succ, Finset.sum_range_succ,
    Finset.sum_range_zero]
  have hZ : ('Z' : Char) = Char.ofNat 90 := rfl
  have e0 : pauliSign 1 ['Z'] 0 = 1 := by rw [hZ]; exact pauliSign_Z_zero
  have e1 : pauliSign 1 ['Z'] 1 = -1 := by rw [hZ]; exact pauliSign_Z_one
  simp only [e0, e1]
  norm_num
  split_ifs <;> ring

lemma evaluateEnergy_ansatzRY (angle : ℝ) :
    evaluateEnergy 1 [angle] ansatzRY hamZ
      = (if Complex.normSq ((Real.cos (angle / 2) : ℝ) : ℂ) < 1e-15 then 0
         else Complex.normSq ((Real.cos (angle / 2) : ℝ) : ℂ))
        - (if Complex.normSq ((Real.sin (angle / 2) : ℝ) : ℂ) < 1e-15 then 0
           else Complex.normSq ((Real.sin (angle / 2) : ℝ) : ℂ)) := by
  rw [evaluateEnergy]
  show ([⟨1, ['Z']⟩] : List PauliTerm).foldl _ 0 = _
  rw [List.foldl_cons, List.foldl_nil]
  show 0 + 1 * expectationValue ['Z'] (ansatzRY [angle] (mkRegister 1)) = _
  rw [show ansatzRY [angle] (mkRegister 1) = applyRotationY 0 angle (mkRegister 1) from rfl]
  rw [applyRotationY_mk1, expectationValue_Z_pair]
  ring

lemma prob0_ket1 : prob0 0 ket1Register = 0 := by
  rw [prob0]
  show (∑ i ∈ Finset.range (2 ^ 1), _) = 0
  rw [show (2 : ℕ) ^ 1 = 2 from rfl, Finset.sum_range_succ, Finset.sum_range_succ,
    Finset.sum_range_zero]
  norm_num [ket1Register]

lemma measureOutcome_ket1 : measureOutcome 0 0 ket1Register = 0 := by
  rw [measureOutcome, prob0_ket1]
  norm_num

lemma collapseNorm_ket1 : collapseNorm 0 0 ket1Register = 0 := by
  rw [collapseNorm]
  show (∑ i ∈ Finset.range (2 ^ 1), _) = 0
  rw [show (2 : ℕ) ^ 1 = 2 from rfl, Finset.sum_range_succ, Finset.sum_range_succ,
    Finset.sum_range_zero]
  norm_num [collapseState, ket1Register]

lemma normSum_ket1 : normSum ket1Register = 1 := by
  rw [normSum]
  show (∑ i ∈ Finset.range (2 ^ 1), _) = 1
  rw [show (2 : ℕ) ^ 1 = 2 from rfl, Finset.sum_range_succ, Finset.sum_range_succ,
    Finset.sum_range_zero]
  norm_num [ket1Register]

lemma measure_ket1_killed : normSum (measure 0 0 ket1Register).2 = 0 := by
  rw [normSum, measure_snd_num_qubits, measure_snd_state, measureOutcome_ket1,
    collapseNorm_ket1, Real.sqrt_zero]
  rw [if_neg (by norm_num : ¬ (0 : ℝ) > 1e-9)]
  calc ∑ k ∈ Finset.range (2 ^ ket1Register.num_qubits),
        Complex.normSq (collapseState 0 0 ket1Register k)
      = collapseNorm 0 0 ket1Register := rfl
    _ = 0 := collapseNorm_ket1

lemma applyX_mk1 : applyX 0 (mkRegister 1) = ket1Register := by
  rw [applyX, if_pos (by decide : (2 : ℕ) ^ 0 < 2 ^ (mkRegister 1).num_qubits)]
  show QuantumRegister.mk 1 _ false [] = _
  rw [ket1Register]
  congr 1
  funext k
  by_cases h0 : k = 0
  · subst h0
    norm_num [mkRegister]
  · by_cases h1 : k = 1
    · subst h1
      norm_num [mkRegister]
    · have h2 : ¬ k < 2 ^ (mkRegister 1).num_qubits := by
        show ¬ k < 2
        omega
      rw [if_neg h2, if_neg h1]
      show (if k = 0 then (1 : ℂ) else 0) = 0
      rw [if_neg h0]

/-! ### Claim theorems -/

/-- Claim C1 (code_bug).  The claim says `expectationValue` computes
`⟨ψ|P|ψ⟩` by the permuted-index algorithm (an `X` at position q flips bit q of
the partner index, `Y` flips with phase ±i, `Z` contributes ±1).  The source
ignores `'X'` and `'Y'` positions entirely (its comment: "require basis
rotation (Todo for Phase 28)").  On the state `|0⟩` with Pauli string `"X"`
the code returns `1`, whereas the spec's permuted-index algorithm gives
`⟨0|X|0⟩ = 0`. -/
theorem expectationValue_ignores_X_on_ket0 :
    expectationValue ['X'] (mkRegister 1) = 1
    ∧ specPauliExpectation ['X'] (mkRegister 1) = 0 := by
  constructor
  · rw [expectationValue]
    show (∑ i ∈ Finset.range (2 ^ 1), _) = 1
    rw [show (2 : ℕ) ^ 1 = 2 from rfl, Finset.sum_range_succ, Finset.sum_range_succ,
      Finset.sum_range_zero]
    have e0 : pauliSign 1 ['X'] 0 = 1 := by decide
    have e1 : pauliSign 1 ['X'] 1 = 1 := by decide
    norm_num [mkRegister, e0, e1]
  · rw [specPauliExpectation]
    show (∑ i ∈ Finset.range (2 ^ 1), _) = 0
    rw [show (2 : ℕ) ^ 1 = 2 from rfl, Finset.sum_range_succ, Finset.sum_range_succ,
      Finset.sum_range_zero]
    have p0 : specPermPhase ['X'] 0 = (1, 1) := rfl
    have p1 : specPermPhase ['X'] 1 = (0, 1) := rfl
    rw [p0, p1]
    norm_num [mkRegister]

/-- Claim C2 (code_bug).  The claim says the parameter-shift gradient and the
adjoint gradient agree within 1e-6 for every Hamiltonian, ansatz and θ.  At
the spec's own scenario 6 (n = 1, ansatz RY(θ) on qubit 0, H = {(1.0,"Z")},
θ = π/2) the parameter-shift engine returns −1 (the correct derivative), but
the adjoint engine returns 0: no kernel ever appends to the tape, so the
adjoint engine records an empty tape, prints the params/tape mismatch warning
and leaves every gradient component zero; |−1 − 0| far exceeds 1e-6. -/
theorem gradient_engines_disagree_at_scenario6 :
    calculateGradients 1 [Real.pi / 2] ansatzRY hamZ = [-1]
    ∧ calculateGradientsAdjoint 1 [Real.pi / 2] ansatzRY hamZ
        = .ok ⟨true, [0]⟩
    ∧ ¬ |(-1 : ℝ) - 0| ≤ 1e-6 := by
  refine ⟨?_, ?_, by norm_num⟩
  · rw [calculateGradients]
    rw [show List.range [Real.pi / 2].length = [0] from rfl, List.map_cons, List.map_nil]
    show [0.5 * (evaluateEnergy 1 [Real.pi / 2 + Real.pi / 2] ansatzRY hamZ
        - evaluateEnergy 1 [Real.pi / 2 - Real.pi / 2] ansatzRY hamZ)] = [-1]
    rw [evaluateEnergy_ansatzRY, evaluateEnergy_ansatzRY]
    rw [show (Real.pi / 2 + Real.pi / 2) / 2 = Real.pi / 2 by ring,
      show (Real.pi / 2 - Real.pi / 2) / 2 = 0 by ring,
      Real.cos_pi_div_two, Real.sin_pi_div_two, Real.cos_zero, Real.sin_zero]
    norm_num [Complex.normSq_ofReal]
  · have htape : (ansatzRY [Real.pi / 2] (enableRecording true (mkRegister 1))).tape
        = [] := by
      show (applyRotationY 0 ([Real.pi / 2].getD 0 0)
        (enableRecording true (mkRegister 1))).tape = []
      rw [tape_applyRotationY]
      rfl
    rw [calculateGradientsAdjoint_empty 1 [Real.pi / 2] ansatzRY hamZ htape]
    rfl

/-- Claim C3 (code_bug).  The claim says every gate kernel appends a
`RecordedGate` to the tape when recording is enabled, so that replaying the
tape on a reset register reproduces the final state.  No kernel in the source
ever appends: after enabling recording and applying `H(0)` on `n = 1`, the
tape is still empty, so replaying it on a fresh `|0⟩` register returns `|0⟩`,
whose amplitude at index 0 (namely 1) differs from the actual final amplitude
`1/√2`. -/
theorem recording_never_appends_roundTrip_fails :
    (applyHadamard 0 (enableRecording true (mkRegister 1))).tape = []
    ∧ replayTape (applyHadamard 0 (enableRecording true (mkRegister 1))).tape
        (mkRegister 1) = .ok (mkRegister 1)
    ∧ (applyHadamard 0 (enableRecording true (mkRegister 1))).state 0
        ≠ (mkRegister 1).state 0 := by
  have htape : (applyHadamard 0 (enableRecording true (mkRegister 1))).tape = [] := by
    rw [tape_applyHadamard]
    rfl
  refine ⟨htape, ?_, ?_⟩
  · rw [htape]
    rfl
  · have hs : (applyHadamard 0 (enableRecording true (mkRegister 1))).state 0
        = (INV_SQRT_2 : ℂ) := by
      rw [applyHadamard,
        if_pos (by decide :
          (2 : ℕ) ^ 0 < 2 ^ (enableRecording true (mkRegister 1)).num_qubits)]
      norm_num [enableRecording, mkRegister]
    rw [hs]
    show (INV_SQRT_2 : ℂ) ≠ (1 : ℂ)
    intro hcon
    have hr : INV_SQRT_2 = 1 := by exact_mod_cast hcon
    rw [INV_SQRT_2] at hr
    have hne : Real.sqrt 2 ≠ 0 := ne_of_gt (Real.sqrt_pos.mpr (by norm_num))
    field_simp at hr
    have hsq : Real.sqrt 2 ^ 2 = 2 := Real.sq_sqrt (by norm_num)
    rw [← hr] at hsq
    norm_num at hsq

/-- Claim C9 (code_bug).  The streaming channel `StreamGates` does initialize
its register with the hard-coded default `n = 3`, but a streamed operation on
a qubit `≥ n` does not fail with `InvalidArgument`: `applyHadamard` with
target 5 has `stride = 32 ≥ local_dim = 8` and silently leaves the state
unchanged, so the dispatch returns normally (the in-code comment "it throws if
out of bounds" is wrong for every kernel except a CNOT with equal qubits). -/
theorem streamGates_out_of_range_is_silent :
    streamGatesInit.num_qubits = 3
    ∧ serviceApplyGate streamGatesInit
        ⟨.HADAMARD, 5, 0, 0, 0, 0⟩ 0 = .ok (streamGatesInit, none) := by
  refine ⟨rfl, ?_⟩
  rw [serviceApplyGate]
  rw [applyHadamard, if_neg (by decide : ¬ (2 : ℕ) ^ 5 < 2 ^ streamGatesInit.num_qubits)]

/-- Claim C10 (confirmed).  `applyRegisteredGate` and
`applyRegisteredGateInverse` hit the `default: break` branch for recorded
gates of kind `PHASE_S`, `PHASE_T`, `TOFFOLI`, `RX` and `MEASURE`: they leave
the register unchanged and raise no error, so forward and inverse tape replay
only ever apply the kinds H, X, Y, Z, CNOT, RY and RZ. -/
theorem applyRegisteredGate_default_noop (gate : RecordedGate) (r : QuantumRegister)
    (h : gate.type = .PHASE_S ∨ gate.type = .PHASE_T ∨ gate.type = .TOFFOLI
        ∨ gate.type = .RX ∨ gate.type = .MEASURE) :
    applyRegisteredGate gate r = .ok r
      ∧ applyRegisteredGateInverse gate r = .ok r := by
  obtain ⟨ty, qs, ps⟩ := gate
  dsimp only at h
  rcases h with h | h | h | h | h <;> subst h <;> exact ⟨rfl, rfl⟩


lemma shiftRight_and_one (k c : ℕ) :
    (k >>> c) &&& 1 = if k.testBit c then 1 else 0 := by
  rw [Nat.and_one_is_mod, Nat.testBit_to_div_mod, Nat.shiftRight_eq_div_pow]
  rcases Nat.mod_two_eq_zero_or_one (k / 2 ^ c) with h | h <;> simp [h]

/-- Claim C7 (confirmed).  For `applyCNOT(c, t)` with `c ≠ t` and both strides
below the local dimension, the kernel succeeds and the post-state amplitude at
every local index `i` equals the pre-state amplitude at
`i XOR (((i >> c) & 1) << t)`: indices with bit `c` set receive the amplitude
of their bit-`t` partner (each pair swapped exactly once), the rest are
untouched. -/
theorem applyCNOT_local_permutes (c t : ℕ) (r : QuantumRegister) (hct : c ≠ t)
    (hc : 2 ^ c < 2 ^ r.num_qubits) (ht : 2 ^ t < 2 ^ r.num_qubits) :
    ∃ r', applyCNOT c t r = .ok r'
      ∧ ∀ k, k < 2 ^ r.num_qubits →
          r'.state k = r.state (k ^^^ (((k >>> c) &&& 1) <<< t)) := by
  refine ⟨{ r with state := fun k =>
      (if k < 2 ^ r.num_qubits ∧ k &&& 2 ^ c ≠ 0 then r.state (k ^^^ 2 ^ t)
        else r.state k) }, ?_, ?_⟩
  · rw [applyCNOT, if_neg hct, if_pos ⟨hc, ht⟩]
  · intro k hk
    show (if k < 2 ^ r.num_qubits ∧ k &&& 2 ^ c ≠ 0 then r.state (k ^^^ 2 ^ t)
        else r.state k) = _
    rw [shiftRight_and_one]
    by_cases hb : k.testBit c
    · rw [if_pos ⟨hk, (and_pow_ne_zero_iff k c).mpr hb⟩, if_pos hb,
        Nat.shiftLeft_eq, one_mul]
    · rw [if_neg (fun hx => hb ((and_pow_ne_zero_iff k c).mp hx.2)), if_neg hb,
        Nat.zero_shiftLeft, Nat.xor_zero]

/-- Witness for C7: `applyCNOT(0, 1)` on the `n = 2` register `|00⟩`. -/
theorem applyCNOT_local_permutes_witness :
    ∃ r', applyCNOT 0 1 (mkRegister 2) = .ok r'
      ∧ ∀ k, k < 2 ^ (mkRegister 2).num_qubits →
          r'.state k = (mkRegister 2).state (k ^^^ (((k >>> 0) &&& 1) <<< 1)) :=
  applyCNOT_local_permutes 0 1 (mkRegister 2) (by decide) (by decide) (by decide)

/-- Claim C4 (amended).  `measure(q)` returns only 0 or 1 and zeroes every
amplitude whose q-bit differs from the outcome; the chosen branch is rescaled
by `1/√mass` (restoring total squared magnitude 1) only when the chosen
branch's pre-measurement mass exceeds 1e-18 (the code's `norm > 1e-9` guard);
no division by zero ever occurs — when the sampled outcome selects a branch
of mass ≤ 1e-18 the state is left as the unscaled (possibly all-zero)
projection. -/
theorem measure_collapse_amended (t : ℕ) (sample : ℝ) (r : QuantumRegister) :
    ((measure t sample r).1 = 0 ∨ (measure t sample r).1 = 1)
    ∧ (∀ k, k < 2 ^ r.num_qubits →
        (if k &&& 2 ^ t = 0 then 0 else 1) ≠ (measure t sample r).1 →
        (measure t sample r).2.state k = 0)
    ∧ (1e-18 < collapseNorm t (measureOutcome t sample r) r →
        normSum (measure t sample r).2 = 1
        ∧ ∀ k, k < 2 ^ r.num_qubits →
            (if k &&& 2 ^ t = 0 then 0 else 1) = (measure t sample r).1 →
            (measure t sample r).2.state k
              = r.state k
                / ((Real.sqrt (collapseNorm t (measureOutcome t sample r) r) : ℝ) : ℂ)) := by
  refine ⟨measure_outcome_zero_or_one t sample r, ?_, ?_⟩
  · intro k hk hne
    exact measure_state_of_ne t sample r k hk hne
  · intro hmass
    exact ⟨measure_normSum_restored t sample r hmass,
      fun k hk heq => measure_state_of_eq t sample r k hk heq hmass⟩

/-- Witness for C4 on `measure(0)` of `|0⟩` with sample 1/2: outcome 0 is
drawn, the chosen branch has mass 1 > 1e-18, and the post-state is normalized. -/
theorem measure_collapse_amended_witness :
    ((measure 0 (1 / 2) (mkRegister 1)).1 = 0 ∨ (measure 0 (1 / 2) (mkRegister 1)).1 = 1)
    ∧ 1e-18 < collapseNorm 0 (measureOutcome 0 (1 / 2) (mkRegister 1)) (mkRegister 1)
    ∧ normSum (measure 0 (1 / 2) (mkRegister 1)).2 = 1 := by
  have hp : prob0 0 (mkRegister 1) = 1 := by
    rw [prob0]
    show (∑ i ∈ Finset.range (2 ^ 1), _) = 1
    rw [show (2 : ℕ) ^ 1 = 2 from rfl, Finset.sum_range_succ, Finset.sum_range_succ,
      Finset.sum_range_zero]
    norm_num [mkRegister]
  have ho : measureOutcome 0 (1 / 2) (mkRegister 1) = 0 := by
    rw [measureOutcome, hp]
    norm_num
  have hcn : collapseNorm 0 (measureOutcome 0 (1 / 2) (mkRegister 1)) (mkRegister 1)
      = 1 := by
    rw [ho, collapseNorm]
    show (∑ i ∈ Finset.range (2 ^ 1), _) = 1
    rw [show (2 : ℕ) ^ 1 = 2 from rfl, Finset.sum_range_succ, Finset.sum_range_succ,
      Finset.sum_range_zero]
    norm_num [collapseState, mkRegister]
  have hmass : 1e-18 < collapseNorm 0 (measureOutcome 0 (1 / 2) (mkRegister 1))
      (mkRegister 1) := by
    rw [hcn]
    norm_num
  exact ⟨(measure_collapse_amended 0 (1 / 2) (mkRegister 1)).1, hmass,
    ((measure_collapse_amended 0 (1 / 2) (mkRegister 1)).2.2 hmass).1⟩

/-- Counterexample for C4 as stated.  On the normalized state `|1⟩` with
sample 0, the code draws `outcome = (0 > prob0 = 0) ? 1 : 0 = 0` — selecting
the branch of probability mass 0 — zeroes everything, and the `norm > 1e-9`
guard skips the rescaling: the post-measurement state is all-zero, so the sum
of squared magnitudes is 0, not 1. -/
theorem measure_zero_mass_branch_not_normalized :
    normSum ket1Register = 1
    ∧ (measure 0 0 ket1Register).1 = 0
    ∧ normSum (measure 0 0 ket1Register).2 = 0 := by
  refine ⟨normSum_ket1, ?_, measure_ket1_killed⟩
  rw [measure_fst, measureOutcome_ket1]

/-- Claim C5 (amended).  Starting from the constructed `|0…0⟩` state, any
sequence of unitary kernel calls that completes keeps
`Σ|aᵢ|² = 1` (exactly, hence within 1e-9) — every unitary kernel preserves
the normalization; measurement restores it provided the chosen branch's
pre-measurement mass exceeds 1e-18 (the code can select a zero-mass branch at
the sampling boundary and then leaves an all-zero state). -/
theorem run_preserves_normalization_amended :
    (∀ (n : ℕ) (calls : List GateCall) (r' : QuantumRegister),
        runCalls calls (mkRegister n) = .ok r' → |normSum r' - 1| ≤ 1e-9)
    ∧ (∀ (t : ℕ) (sample : ℝ) (r : QuantumRegister),
        1e-18 < collapseNorm t (measureOutcome t sample r) r →
        |normSum (measure t sample r).2 - 1| ≤ 1e-9) := by
  constructor
  · intro n calls r' h
    rw [runCalls_normSum calls _ r' h, normSum_mkRegister]
    norm_num
  · intro t sample r h
    rw [measure_normSum_restored t sample r h]
    norm_num

/-- Witness for C5: the sequence `[H(0)]` on `n = 1`, and a measurement of
`|0⟩` whose chosen branch has mass 1. -/
theorem run_preserves_normalization_amended_witness :
    |normSum (applyHadamard 0 (mkRegister 1)) - 1| ≤ 1e-9
    ∧ |normSum (measure 0 (1 / 2) (mkRegister 1)).2 - 1| ≤ 1e-9 := by
  constructor
  · exact run_preserves_normalization_amended.1 1 [.hadamard 0]
      (applyHadamard 0 (mkRegister 1)) rfl
  · refine run_preserves_normalization_amended.2 0 (1 / 2) (mkRegister 1) ?_
    have hp : prob0 0 (mkRegister 1) = 1 := by
      rw [prob0]
      show (∑ i ∈ Finset.range (2 ^ 1), _) = 1
      rw [show (2 : ℕ) ^ 1 = 2 from rfl, Finset.sum_range_succ, Finset.sum_range_succ,
        Finset.sum_range_zero]
      norm_num [mkRegister]
    have ho : measureOutcome 0 (1 / 2) (mkRegister 1) = 0 := by
      rw [measureOutcome, hp]
      norm_num
    rw [ho, collapseNorm]
    show (1e-18 : ℝ) < ∑ i ∈ Finset.range (2 ^ 1), _
    rw [show (2 : ℕ) ^ 1 = 2 from rfl, Finset.sum_range_succ, Finset.sum_range_succ,
      Finset.sum_range_zero]
    norm_num [collapseState, mkRegister]

/-- Counterexample for C5 as stated ("measurement restores the
normalization").  Run the unitary sequence `[X(0)]` from `|0⟩` (the state is
exactly normalized), then measure qubit 0 with sample 0: the code selects the
zero-mass branch and returns the all-zero state, so measurement does not
restore `Σ|aᵢ|² = 1`. -/
theorem measurement_after_unitaries_not_normalized :
    runCalls [GateCall.x 0] (mkRegister 1) = .ok ket1Register
    ∧ normSum ket1Register = 1
    ∧ normSum (measure 0 0 ket1Register).2 = 0 := by
  refine ⟨?_, normSum_ket1, measure_ket1_killed⟩
  rw [runCalls_cons]
  show (Except.ok (applyX 0 (mkRegister 1)) >>= fun r1 => runCalls [] r1) = _
  rw [applyX_mk1]
  rfl


/-- Claim C6 (amended).  Of the claimed validations, only
`applyCNOT(c, c)` actually throws `InvalidArgument`.  Every single-qubit
kernel (and `applyToffoli`) called with a qubit index `≥ n` is a silent no-op
that leaves the store unchanged, a CNOT with distinct qubits but an
out-of-range target returns normally with the store unchanged (non-MPI
build), and `applyToffoli` performs no distinctness validation at all. -/
theorem kernel_validation_amended :
    (∀ (c : ℕ) (r : QuantumRegister),
        applyCNOT c c r
          = .error (.invalidArgument "Control and target must be distinct"))
    ∧ (∀ (t : ℕ) (r : QuantumRegister), r.num_qubits ≤ t →
        applyHadamard t r = r ∧ applyX t r = r ∧ applyY t r = r ∧ applyZ t r = r
          ∧ applyPhaseS t r = r ∧ applyPhaseT t r = r
          ∧ ∀ angle : ℝ, applyRotationY t angle r = r ∧ applyRotationZ t angle r = r)
    ∧ (∀ (c1 c2 t : ℕ) (r : QuantumRegister), r.num_qubits ≤ t →
        applyToffoli c1 c2 t r = r)
    ∧ (∀ (c t : ℕ) (r : QuantumRegister), c ≠ t → r.num_qubits ≤ t →
        applyCNOT c t r = .ok r) := by
  refine ⟨?_, ?_, ?_, ?_⟩
  · intro c r
    rw [applyCNOT, if_pos rfl]
  · intro t r h
    have hstride : ¬ (2 : ℕ) ^ t < 2 ^ r.num_qubits :=
      not_lt.mpr (Nat.pow_le_pow_right (by norm_num) h)
    refine ⟨?_, ?_, ?_, ?_, ?_, ?_, ?_⟩
    · rw [applyHadamard, if_neg hstride]
    · rw [applyX, if_neg hstride]
    · rw [applyY, if_neg hstride]
    · rw [applyZ, if_neg hstride]
    · rw [applyPhaseS, if_neg hstride]
    · rw [applyPhaseT, if_neg hstride]
    · intro angle
      constructor
      · rw [applyRotationY, if_neg hstride]
      · rw [applyRotationZ, if_neg hstride]
  · intro c1 c2 t r h
    have hstride : ¬ (2 : ℕ) ^ t < 2 ^ r.num_qubits :=
      not_lt.mpr (Nat.pow_le_pow_right (by norm_num) h)
    rw [applyToffoli, if_neg hstride]
  · intro c t r hct h
    have hstride : ¬ (2 : ℕ) ^ t < 2 ^ r.num_qubits :=
      not_lt.mpr (Nat.pow_le_pow_right (by norm_num) h)
    rw [applyCNOT, if_neg hct, if_neg (fun hx => hstride hx.2)]

/-- Witness for C6 at concrete inputs: `applyCNOT(0,0)` errors on `n = 1`;
`applyHadamard(1)` on `n = 1`, `applyToffoli(0,1,2)` on `n = 2` and
`applyCNOT(0,2)` on `n = 2` are silent no-ops. -/
theorem kernel_validation_amended_witness :
    applyCNOT 0 0 (mkRegister 1)
        = .error (.invalidArgument "Control and target must be distinct")
    ∧ applyHadamard 1 (mkRegister 1) = mkRegister 1
    ∧ applyToffoli 0 1 2 (mkRegister 2) = mkRegister 2
    ∧ applyCNOT 0 2 (mkRegister 2) = .ok (mkRegister 2) := by
  obtain ⟨h1, h2, h3, h4⟩ := kernel_validation_amended
  exact ⟨h1 0 (mkRegister 1), (h2 1 (mkRegister 1) (by decide)).1,
    h3 0 1 2 (mkRegister 2) (by decide), h4 0 2 (mkRegister 2) (by decide) (by decide)⟩

/-- Counterexample for C6 as stated.  `applyToffoli` with equal controls
`c1 = c2 = 0` on the `n = 2` state `|01⟩` does not fail with
`InvalidArgument` (the kernel is a total function with no error path), and it
does not leave the store unchanged: it acts as a controlled-X and moves the
amplitude from index 1 to index 3. -/
theorem toffoli_equal_controls_mutates :
    (applyToffoli 0 0 1 q2Register01).state 1 = 0
    ∧ (applyToffoli 0 0 1 q2Register01).state 3 = 1
    ∧ q2Register01.state 1 = 1 := by
  refine ⟨?_, ?_, rfl⟩
  · rw [applyToffoli, if_pos (by decide : (2 : ℕ) ^ 1 < 2 ^ q2Register01.num_qubits)]
    norm_num [q2Register01]
    decide
  · rw [applyToffoli, if_pos (by decide : (2 : ℕ) ^ 1 < 2 ^ q2Register01.num_qubits)]
    norm_num [q2Register01]
    rw [if_pos (by decide : (3 : ℕ) &&& 2 = 0 ∨ ((3 : ℕ) ^^^ 2) &&& 2 = 0),
      if_pos (by decide : (3 : ℕ) ^^^ 2 = 1)]

/-- Counterexample for C8 as stated.  With two parameters but an ansatz whose
(unrecorded, hence empty) tape contains no parameterized gate, the adjoint
engine detects the mismatch (`mismatch_warned = true`) but does not abort: it
returns normally with the zero gradient vector of length 2. -/
theorem adjoint_mismatch_does_not_abort :
    calculateGradientsAdjoint 1 [(1 : ℝ), 2] ansatzRY hamZ
      = .ok ⟨true, [0, 0]⟩ := by
  have htape : (ansatzRY [(1 : ℝ), 2] (enableRecording true (mkRegister 1))).tape
      = [] := by
    show (applyRotationY 0 ([(1 : ℝ), 2].getD 0 0)
      (enableRecording true (mkRegister 1))).tape = []
    rw [tape_applyRotationY]
    rfl
  rw [calculateGradientsAdjoint_empty 1 [(1 : ℝ), 2] ansatzRY hamZ htape]
  rfl

/-- Claim C8 (amended).  The adjoint engine counts the parameterized gates in
the recorded tape and compares the count with the parameter vector's length;
because no kernel records, the tape of any kernel-built ansatz is empty, so
for a non-empty parameter vector the mismatch warning is always reported —
and the computation continues, returning the zero gradient vector of length
P, instead of aborting. -/
theorem adjoint_mismatch_warns_and_continues (n : ℕ) (params : List ℝ)
    (ansatz : AnsatzFunction) (ham : List PauliTerm)
    (hp : params ≠ [])
    (htape : (ansatz params (enableRecording true (mkRegister n))).tape = []) :
    calculateGradientsAdjoint n params ansatz ham
      = .ok ⟨true, List.replicate params.length 0⟩ := by
  rw [calculateGradientsAdjoint_empty n params ansatz ham htape]
  have hw : (0 != params.length) = true := by
    cases params with
    | nil => exact absurd rfl hp
    | cons a l => rfl
  rw [hw]

/-- Witness for C8 with one parameter and the RY ansatz. -/
theorem adjoint_mismatch_warns_and_continues_witness :
    calculateGradientsAdjoint 1 [(1 : ℝ) / 2] ansatzRY hamZ
      = .ok ⟨true, List.replicate 1 0⟩ := by
  refine adjoint_mismatch_warns_and_continues 1 [(1 : ℝ) / 2] ansatzRY hamZ
    (by simp) ?_
  show (applyRotationY 0 ([(1 : ℝ) / 2].getD 0 0)
    (enableRecording true (mkRegister 1))).tape = []
  rw [tape_applyRotationY]
  rfl

/-- Witness for C10 at the concrete no-op kind `PHASE_S` on the `|0⟩`
register. -/
theorem applyRegisteredGate_default_noop_witness :
    applyRegisteredGate ⟨.PHASE_S, [0], []⟩ (mkRegister 1) = .ok (mkRegister 1)
      ∧ applyRegisteredGateInverse ⟨.PHASE_S, [0], []⟩ (mkRegister 1)
          = .ok (mkRegister 1) :=
  applyRegisteredGate_default_noop ⟨.PHASE_S, [0], []⟩ (mkRegister 1) (Or.inl rfl)

end

end QubitEngine
